import Mathlib

/-!
Verification of the Home Assistant LSP server
(`ha_opencode/rootfs/opt/ha-lsp-server/server.js`) against its
natural-language specification.

The development shallowly embeds the relevant parts of `server.js`:

* the TTL cache of `HomeAssistantClient` (`isCacheValid`, `getCached`),
* the `YamlContextAnalyzer` (`analyzeContext` and the reference scans
  `findEntityReferences`, `findServiceReferences`, `findIncludeReferences`),
* the diagnostics pass `validateDocument`,
* the hover dispatch of `connection.onHover`, and
* the completion builders `getEntityCompletions` / `getServiceCompletions`.

JavaScript strings are modelled as `String`/`List Char`, `Date.now()` as an
explicit `Int` clock parameter, `Map` objects as functions into `Option`,
and all external effects (HTTP fetches, the YAML parser, the file system)
as explicit parameters.  Regular expressions are translated by hand; each
translation is justified next to its definition (the character classes of
the scanned patterns are disjoint, so the greedy matches need no
backtracking except where noted for the list-form entity pattern).
-/

/-! ## The TTL cache (`HomeAssistantClient`, server.js lines 102-166) -/

/-- `CACHE_TTL = 60000` (server.js line 52): one minute, in the
milliseconds granularity of `Date.now()`; the spec's "60 time units". -/
def CACHE_TTL : Int := 60000

/-- The two maps of `HomeAssistantClient`: `this.cache` and
`this.cacheTimestamps` (server.js lines 104-105), modelled as functions
into `Option` (a JS `Map.get` of an absent key is `undefined`). -/
structure CacheState (K V : Type) where
  cache : K → Option V
  cacheTimestamps : K → Option Int

/-- What one `getCached` call produces: the value returned (or the error
thrown), the state of the two maps afterwards, and whether the supplied
`fetcher` was invoked. -/
structure GetOutcome (K V E : Type) where
  result : Except E (Option V)
  state : CacheState K V
  fetcherInvoked : Bool

/-- `isCacheValid` (server.js lines 139-142):
`timestamp && (Date.now() - timestamp) < CACHE_TTL`.
An absent timestamp (`undefined`) and a zero timestamp are both falsy in
JS, so both make the entry invalid. -/
def isCacheValid (st : CacheState K V) (now : Int) (key : K) : Bool :=
  match st.cacheTimestamps key with
  | none => false
  | some ts => decide (ts ≠ 0) && decide (now - ts < CACHE_TTL)

/-- `Map.set` on a function-modelled map. -/
def mupd [DecidableEq K] (m : K → Option V) (k : K) (v : V) : K → Option V :=
  fun q => if q = k then some v else m q

/-- `getCached` (server.js lines 144-161).  The asynchronous `fetcher` is
modelled by the outcome it would produce (`fetchOutcome`), and `Date.now()`
by `now`.  A valid entry returns `this.cache.get(key)` without invoking the
fetcher; otherwise the fetcher runs: on success value and timestamp are
stored, on failure a stale value is returned when one exists, else the
error propagates. -/
def getCached [DecidableEq K] (st : CacheState K V) (key : K)
    (fetchOutcome : Except E V) (now : Int) : GetOutcome K V E :=
  if isCacheValid st now key then
    { result := Except.ok (st.cache key), state := st, fetcherInvoked := false }
  else
    match fetchOutcome with
    | Except.ok data =>
        { result := Except.ok (some data),
          state := { cache := mupd st.cache key data,
                     cacheTimestamps := mupd st.cacheTimestamps key now },
          fetcherInvoked := true }
    | Except.error err =>
        match st.cache key with
        | some v => { result := Except.ok (some v), state := st, fetcherInvoked := true }
        | none => { result := Except.error err, state := st, fetcherInvoked := true }

/-- `invalidateCache` (server.js lines 163-166): both maps are cleared
together. -/
def invalidateCache (_st : CacheState K V) : CacheState K V :=
  { cache := fun _ => none, cacheTimestamps := fun _ => none }

/-- The empty cache (a fresh `HomeAssistantClient`). -/
def emptyCache : CacheState String Nat :=
  { cache := fun _ => none, cacheTimestamps := fun _ => none }

/-- A cache holding a stale entry for `"states"`: value 42 fetched at
clock 10, long expired by clock 100000. -/
def staleCache : CacheState String Nat :=
  { cache := mupd (fun _ => none) ("states") 42,
    cacheTimestamps := mupd (fun _ => none) ("states") 10 }

/-! ## String and regex utilities (shared by the analyzer, the scans and the providers) -/

/-- The regex class `\s`, restricted to ASCII (the documents at issue are
ASCII; JS additionally counts some Unicode spaces). -/
def isJsSpace (c : Char) : Bool :=
  c = ' ' || c = '\t' || c = '\n' || c = '\r' || c = '\x0b' || c = '\x0c'

/-- The class `[a-z_]` under the `i` flag: letters of either case and
underscore. -/
def isDomainChar (c : Char) : Bool :=
  ('a' ≤ c && c ≤ 'z') || ('A' ≤ c && c ≤ 'Z') || c = '_'

/-- The class `[0-9]`. -/
def isDigitChar (c : Char) : Bool := '0' ≤ c && c ≤ '9'

/-- The class `[a-z0-9_]` under the `i` flag; also the regex class `\w`. -/
def isNameChar (c : Char) : Bool := isDomainChar c || isDigitChar c

/-- The class `[a-zA-Z0-9_.]` of `getWordRangeAtPosition`, also `[\w.]`. -/
def isWordDotChar (c : Char) : Bool := isNameChar c || c = '.'

/-- The class `[a-z_.]` under the `i` flag (the typed-fragment capture). -/
def isTypedChar (c : Char) : Bool := isDomainChar c || c = '.'

/-- JS `String.indexOf(needle)`: the first position where `needle` occurs,
`none` standing for JS's `-1`. -/
def indexOfSub (needle : List Char) : List Char → Option Nat
  | [] => if needle.isEmpty then some 0 else none
  | c :: rest =>
    if needle.isPrefixOf (c :: rest) then some 0
    else (indexOfSub needle rest).map (fun k => k + 1)

/-- JS `String.includes(needle)`. -/
def containsSub (hay needle : List Char) : Bool := (indexOfSub needle hay).isSome

/-- JS `String.indexOf(needle, start)`. -/
def indexOfFrom (hay needle : List Char) (start : Nat) : Option Nat :=
  (indexOfSub needle (hay.drop start)).map (fun k => k + start)

/-- JS `String.lastIndexOf(needle, n)`: the largest position `p ≤ n` at
which `needle` occurs, or `-1`.  `String.lastIndexOf(needle)` is the case
`n = hay.length`. -/
def lastIndexOfFrom (hay needle : List Char) : Nat → Int
  | 0 => if needle.isPrefixOf hay then 0 else -1
  | i + 1 =>
    if needle.isPrefixOf (hay.drop (i + 1)) then ((i + 1 : Nat) : Int)
    else lastIndexOfFrom hay needle i

def lastIndexOf (hay needle : List Char) : Int := lastIndexOfFrom hay needle hay.length

/-- JS `text.split("\n")`: the segments between newlines, the empty text
splitting to one empty segment. -/
def splitLines : List Char → List (List Char)
  | [] => [[]]
  | '\n' :: rest => [] :: splitLines rest
  | c :: rest =>
    match splitLines rest with
    | [] => [[c]]
    | l :: ls => (c :: l) :: ls

def docLines (text : String) : List String :=
  (splitLines text.toList).map (fun l => String.mk l)

/-- JS `String.trim()` (ASCII whitespace). -/
def jsTrim (cs : List Char) : List Char :=
  ((cs.dropWhile isJsSpace).reverse.dropWhile isJsSpace).reverse

/-- JS `.replace(/^-\s*/, "")` (server.js line 325): one leading dash and
the whitespace after it are removed. -/
def stripLeadingDash (cs : List Char) : List Char :=
  match cs with
  | '-' :: rest => rest.dropWhile isJsSpace
  | _ => cs

/-- `lineBeforeCursor` (server.js lines 291-292): the line at the cursor
(`lines[position.line] || ""`) cut at the cursor column
(`line.substring(0, position.character)`, which clamps). -/
def lineBefore (text : String) (l c : Nat) : List Char :=
  (((docLines text).getD l ("")).toList).take c

/-- A line's leading-whitespace count: `line.match(/^(\s*)/)?.[1].length || 0`
(the regex always matches, and `|| 0` maps an empty capture to 0 either way). -/
def lineIndent (cs : List Char) : Nat := (cs.takeWhile isJsSpace).length

/-- `currentIndent` (server.js line 334), computed on `lineBeforeCursor`. -/
def cursorIndent (text : String) (l c : Nat) : Nat := lineIndent (lineBefore text l c)

/-- Server.js lines 313-317: `jinjaStart = lastIndexOf("\x7b\x7b")`,
`jinjaEnd = lastIndexOf("\x7d\x7d")`, in-Jinja iff `jinjaStart > jinjaEnd`
(with `-1` for an absent marker). -/
def inJinjaOf (lbc : List Char) : Bool :=
  decide (lastIndexOf lbc (['}', '}']) < lastIndexOf lbc (['{', '{']))

/-- The bare-key regex of the parent walk, `/^(\s*)([a-z_]+)\s*:/i`
(server.js line 339): leading whitespace, a nonempty run of letters or
underscores, optional whitespace, a colon.  The greedy runs need no
backtracking: a shorter `[a-z_]+` or `\s*` run would place a letter or a
space where `:` is required. -/
def bareKeyOf (cs : List Char) : Option String :=
  let afterWs := cs.dropWhile isJsSpace
  let key := afterWs.takeWhile isDomainChar
  if key.isEmpty then none
  else
    match (afterWs.drop key.length).dropWhile isJsSpace with
    | ':' :: _ => some (String.mk key)
    | _ => none

/-- The parent-key walk (server.js lines 336-349): `i` runs from
`position.line - 1` down to 0; a line matching the bare-key regex whose
indent is less than `currentIndent` is unshifted onto the chain.  The
source line `currentIndent === prevIndent;` is a comparison whose result
is discarded, so `currentIndent` is never reassigned during the walk. -/
def parentKeysAux (lines : List String) (curIndent : Nat) : Nat → List String → List String
  | 0, acc => acc
  | i + 1, acc =>
    let prevLine := lines.getD i ("")
    let acc1 :=
      match bareKeyOf prevLine.toList with
      | some k => if lineIndent prevLine.toList < curIndent then k :: acc else acc
      | none => acc
    parentKeysAux lines curIndent i acc1

/-- `context.parentKeys` after the walk. -/
def parentKeysOf (text : String) (l c : Nat) : List String :=
  parentKeysAux (docLines text) (cursorIndent text l c) l []

/-- Anchored head of `/platform:\s*(\w+)/` (server.js line 355, no `i`
flag): the literal, optional whitespace, then a nonempty `\w` run (the
capture).  `\s` and `\w` are disjoint, so greedy matching is exact. -/
def matchPlatformAt (cs : List Char) : Option String :=
  if List.isPrefixOf ("platform:".toList) cs then
    let w := ((cs.drop 9).dropWhile isJsSpace).takeWhile isNameChar
    if w.isEmpty then none else some (String.mk w)
  else none

/-- An unanchored regex search: try the anchored matcher at each position
left to right, as `String.match` does. -/
def scanFirst (m : List Char → Option String) : List Char → Option String
  | [] => none
  | c :: rest =>
    match m (c :: rest) with
    | some w => some w
    | none => scanFirst m rest

/-- `line.match(/platform:\s*(\w+)/)`, returning the capture. -/
def platformOfLine (s : String) : Option String := scanFirst matchPlatformAt s.toList

/-- Anchored head of `/service:\s*([\w.]+)/` (server.js line 366, no `i`
flag). -/
def matchServiceCallAt (cs : List Char) : Option String :=
  if List.isPrefixOf ("service:".toList) cs then
    let w := ((cs.drop 8).dropWhile isJsSpace).takeWhile isWordDotChar
    if w.isEmpty then none else some (String.mk w)
  else none

/-- `line.match(/service:\s*([\w.]+)/)`, returning the capture. -/
def serviceCallOfLine (s : String) : Option String := scanFirst matchServiceCallAt s.toList

/-- The trigger/action scans (server.js lines 354-360 and 365-372): `i`
runs from `position.line` DOWN to 0 and the first line whose match
succeeds wins — the scan moves toward the start of the document. -/
def scanBack (f : String → Option String) (lines : List String) : Nat → Option String
  | 0 => f (lines.getD 0 (""))
  | i + 1 =>
    match f (lines.getD (i + 1) ("")) with
    | some w => some w
    | none => scanBack f lines i

/-- `context.triggerType` (server.js lines 352-361): set only when the
chain includes `trigger` or `triggers`, to the capture of the nearest
`platform:` line at or above the cursor. -/
def triggerTypeOf (lines : List String) (pks : List String) (l : Nat) : Option String :=
  if ("trigger" ∈ pks ∨ "triggers" ∈ pks) then scanBack platformOfLine lines l
  else none

/-- `context.domain` (server.js lines 363-373): set only when the chain
includes `action` or `actions`, to the part before the first dot
(`split(".")[0]`) of the nearest `service:` capture at or above the
cursor. -/
def domainOf (lines : List String) (pks : List String) (l : Nat) : Option String :=
  if ("action" ∈ pks ∨ "actions" ∈ pks) then
    match scanBack serviceCallOfLine lines l with
    | some svc => some (String.mk (svc.toList.takeWhile (fun ch => ch != '.')))
    | none => none
  else none

/-- The context record built by `YamlContextAnalyzer.analyzeContext`
(server.js lines 295-310), minus the `offset`/`position` echoes and the
`actionType` field, which the source never assigns. -/
structure YamlContext where
  line : String
  lineBeforeCursor : String
  inKey : Bool
  inValue : Bool
  key : Option String
  parentKey : Option String
  parentKeys : List String
  inList : Bool
  inJinja : Bool
  triggerType : Option String
  domain : Option String
deriving DecidableEq, Repr

/-- `YamlContextAnalyzer.analyzeContext(document, position)` (server.js
lines 287-376) at zero-based line `l`, column `c`.  `inKey`/`inValue`/`key`
follow the first colon of `lineBeforeCursor` (lines 320-326); `inList` is
the `/^\s*-\s*/` test (line 329); `parentKey` is the first key the walk
accepts, which ends up last in the chain. -/
def analyzeContext (text : String) (l c : Nat) : YamlContext :=
  let lbc := lineBefore text l c
  let colonIndex := lbc.findIdx? (fun ch => ch == ':')
  { line := (docLines text).getD l ("")
    lineBeforeCursor := String.mk lbc
    inKey := colonIndex.isNone
    inValue := colonIndex.isSome
    key := match colonIndex with
      | none => none
      | some idx => some (String.mk (stripLeadingDash (jsTrim (lbc.take idx))))
    parentKey := (parentKeysOf text l c).getLast?
    parentKeys := parentKeysOf text l c
    inList := decide ((lbc.dropWhile isJsSpace).head? = some '-')
    inJinja := inJinjaOf lbc
    triggerType := triggerTypeOf (docLines text) (parentKeysOf text l c) l
    domain := domainOf (docLines text) (parentKeysOf text l c) l }



/-! ## Documents and claim-model definitions used by concrete instances -/

/-- The claim's example document: `automation:` / `  trigger:` /
`    platform: time`. -/
def exDoc3 : String := "automation:\n  trigger:\n    platform: time"

/-- Two sibling top-level keys above an indented cursor line: `a:`,
`b:`, `  x: 1`. -/
def doc3b : String := "a:\nb:\n  x: 1"

/-- Modelled from the claim's wording for C3 (spec section 4.2 step 5):
walk upward accepting only lines strictly shallower than every previously
accepted line, i.e. the acceptance threshold tightens to each accepted
line's indent.  Defined only to compare the claim with the source walk,
whose threshold never tightens. -/
def chainPrevAcceptedAux (lines : List String) : Nat → Nat → List String → List String
  | 0, _, acc => acc
  | i + 1, thr, acc =>
    let pl := lines.getD i ("")
    match bareKeyOf pl.toList with
    | some k =>
      if lineIndent pl.toList < thr then
        chainPrevAcceptedAux lines i (lineIndent pl.toList) (k :: acc)
      else chainPrevAcceptedAux lines i thr acc
    | none => chainPrevAcceptedAux lines i thr acc

/-- The claim-worded chain, started at the cursor line's indent. -/
def chainPrevAccepted (lines : List String) (cursorLine cursorInd : Nat) : List String :=
  chainPrevAcceptedAux lines cursorLine cursorInd []

/-- A trigger block whose only `platform:` line is BELOW the cursor
line: `trigger:` / `  foo: 1` / `  platform: time`, cursor on line 1. -/
def doc6 : String := "trigger:\n  foo: 1\n  platform: time"

/-- A trigger block whose `platform:` line is above the cursor line:
`trigger:` / `  platform: time` / `  foo: 1`, cursor on line 2. -/
def doc6w : String := "trigger:\n  platform: time\n  foo: 1"

/-- Modelled from the claim's wording (spec 4.2 step 6): scan forward from
the cursor line, toward the end of the document, for the nearest
`platform: word` line.  Defined only to compare the claim with the
source's scan, which walks in the opposite direction. -/
def triggerTypeForwardSpec (lines : List String) (cursorLine : Nat) : Option String :=
  (lines.drop cursorLine).findSome? platformOfLine

/-! ## Reference extractor, diagnostics, hover and completions -/

/-- An LSP position: zero-based line and UTF-16 column (the texts at
issue are ASCII, where columns and character counts agree). -/
structure TextPos where
  line : Nat
  character : Nat
deriving DecidableEq, Repr

/-- An LSP range. -/
structure TextRange where
  startPos : TextPos
  endPos : TextPos
deriving DecidableEq, Repr

/-- `document.positionAt(offset)` of `vscode-languageserver-textdocument`:
the number of newlines before the (length-clamped) offset, and the
distance from the last newline before it. -/
def positionAt (cs : List Char) (off : Nat) : TextPos :=
  { line := (cs.take off).count '\n',
    character := ((cs.take off).reverse.takeWhile (fun ch => ch != '\n')).length }

/-- The range `[startOff, endOff)` as positions. -/
def mkRange (cs : List Char) (startOff endOff : Nat) : TextRange :=
  { startPos := positionAt cs startOff, endPos := positionAt cs endOff }

/-- One reference found by `findEntityReferences` (server.js lines
381-448): the entity id, its exact range, and whether the reference came
from one of the two template-call scans. -/
structure EntityRef where
  entityId : String
  range : TextRange
  inJinja : Bool
deriving DecidableEq, Repr

/-- One reference found by `findServiceReferences` (server.js lines 453-473). -/
structure ServiceRef where
  service : String
  range : TextRange
deriving DecidableEq, Repr

/-- One reference found by `findIncludeReferences` (server.js lines 478-498). -/
structure IncludeRef where
  path : String
  range : TextRange
deriving DecidableEq, Repr

/-- Case-insensitive character comparison (the regex `i` flag on literals). -/
def lowerEq (a b : Char) : Bool := a.toLower == b.toLower

/-- Case-insensitive prefix test for a literal under the `i` flag. -/
def ciIsPrefixOf : List Char → List Char → Bool
  | [], _ => true
  | _ :: _, [] => false
  | a :: as, b :: bs => lowerEq a b && ciIsPrefixOf as bs

/-- The capture `([a-z_]+\.[a-z0-9_]+)` under the `i` flag, shared by the
reference scans: a nonempty letter/underscore run, a dot, a nonempty
alphanumeric/underscore run, all greedy.  No backtracking is possible: a
shorter first run would put a letter where `.` is required, and the match
simply ends after the greedy second run. -/
def matchDomainName (cs : List Char) : Option (List Char) :=
  let d := cs.takeWhile isDomainChar
  if d.isEmpty then none
  else
    match cs.drop d.length with
    | '.' :: rest =>
      let n := rest.takeWhile isNameChar
      if n.isEmpty then none else some (d ++ '.' :: n)
    | _ => none

/-- The `while ((match = re.exec(text)) !== null)` loop of a `g`-flag
regex: at each position try the anchored matcher; on a match of length
`len` record it and resume at the match end, else advance one position.
The fuel argument (instantiated with `length + 1`) only serves
termination: every matcher below returns a positive length, exactly the
reason the JS loop terminates. -/
def scanG (m : List Char → Option (α × Nat)) : Nat → List Char → Nat → List (α × Nat)
  | 0, _, _ => []
  | _ + 1, [], _ => []
  | fuel + 1, c :: rest, pos =>
    match m (c :: rest) with
    | some (a, len) => (a, pos) :: scanG m fuel ((c :: rest).drop len) (pos + len)
    | none => scanG m fuel rest (pos + 1)

/-- Anchored head of `/entity_id:\s*([a-z_]+\.[a-z0-9_]+)/gi` (server.js
line 386).  The payload is the capture and `match[0].indexOf(match[1])`
(server.js line 390), computed literally; the second component is the
whole match's length. -/
def matchEntityValueAt (cs : List Char) : Option ((String × Nat) × Nat) :=
  if ciIsPrefixOf ("entity_id:".toList) cs then
    let afterKey := cs.drop 10
    let ws := afterKey.takeWhile isJsSpace
    match matchDomainName (afterKey.drop ws.length) with
    | some ent =>
      let len := 10 + ws.length + ent.length
      some ((String.mk ent, (indexOfSub ent (cs.take len)).getD 0), len)
    | none => none
  else none

/-- One repetition of the list-item group without its trailing `\s*`:
`\s+-\s+[a-z_]+\.[a-z0-9_]+`.  The trailing `\s*` of one repetition and
the leading `\s+` of the next together cover the whitespace run between
entity and dash, so the loop below gives the run to the next repetition
when one matches and to the trailing `\s*` otherwise — exactly the greedy
backtracking of `(\s+-\s+E\s*)+`. -/
def repCore (cs : List Char) : Option Nat :=
  let w1 := cs.takeWhile isJsSpace
  if w1.isEmpty then none
  else
    match cs.drop w1.length with
    | '-' :: r1 =>
      let w2 := r1.takeWhile isJsSpace
      if w2.isEmpty then none
      else
        match matchDomainName (r1.drop w2.length) with
        | some ent => some (w1.length + 1 + w2.length + ent.length)
        | none => none
    | _ => none

/-- After a matched repetition: as many further repetitions as will
match, then the final trailing `\s*` (greedy).  Fuel as in `scanG`:
`repCore` consumes at least one character. -/
def repsTail : Nat → List Char → Nat
  | 0, cs => (cs.takeWhile isJsSpace).length
  | fuel + 1, cs =>
    match repCore cs with
    | some k => k + repsTail fuel (cs.drop k)
    | none => (cs.takeWhile isJsSpace).length

/-- `(\s+-\s+E\s*)+`: at least one repetition, then `repsTail`. -/
def repStart (cs : List Char) : Option Nat :=
  match repCore cs with
  | some k => some (k + repsTail cs.length (cs.drop k))
  | none => none

/-- The `\s*\n` head of the list pattern: the whitespace run after the
key holds the newline candidates; greedy `\s*` tries the rightmost
newline of the run first and backtracks leftward until the repetitions
match.  `idx + 1` is how many leading positions of the run are still
candidates. -/
def tryNl (afterKey : List Char) : Nat → Option Nat
  | 0 => none
  | idx + 1 =>
    if afterKey.getD idx ' ' = '\n' then
      match repStart (afterKey.drop (idx + 1)) with
      | some k => some (idx + 1 + k)
      | none => tryNl afterKey idx
    else tryNl afterKey idx

/-- Anchored head of the list pattern
`/entity_id:\s*\n(\s+-\s+[a-z_]+\.[a-z0-9_]+\s*)+/gi` (server.js line
402).  The payload is `match[0]` (the `listContent` the source rescans);
the length is the whole match's. -/
def matchEntityListAt (cs : List Char) : Option (List Char × Nat) :=
  if ciIsPrefixOf ("entity_id:".toList) cs then
    let afterKey := cs.drop 10
    match tryNl afterKey (afterKey.takeWhile isJsSpace).length with
    | some k => some (cs.take (10 + k), 10 + k)
    | none => none
  else none

/-- Anchored head of the inner item pattern of server.js line 405 —
dash, `\s+`, then the capture `([a-z_]+\.[a-z0-9_]+)`, flags `gi` — run
over `listContent`; payload as in `matchEntityValueAt`. -/
def matchListItemAt (cs : List Char) : Option ((String × Nat) × Nat) :=
  match cs with
  | '-' :: r1 =>
    let w := r1.takeWhile isJsSpace
    if w.isEmpty then none
    else
      match matchDomainName (r1.drop w.length) with
      | some ent =>
        let len := 1 + w.length + ent.length
        some ((String.mk ent, (indexOfSub ent (cs.take len)).getD 0), len)
      | none => none
  | _ => none

/-- The class `['"]`. -/
def isQuoteChar (c : Char) : Bool := c = '\'' || c = '"'

/-- Anchored head of `/states\(['"]([a-z_]+\.[a-z0-9_]+)['"]\)/gi`
(server.js line 420): the literal call, a quote of either kind, the
capture, a quote, a closing parenthesis. -/
def matchStatesCallAt (cs : List Char) : Option ((String × Nat) × Nat) :=
  if ciIsPrefixOf ("states(".toList) cs then
    match cs.drop 7 with
    | q1 :: r1 =>
      if isQuoteChar q1 then
        match matchDomainName r1 with
        | some ent =>
          match r1.drop ent.length with
          | q2 :: ')' :: _ =>
            if isQuoteChar q2 then
              let len := 10 + ent.length
              some ((String.mk ent, (indexOfSub ent (cs.take len)).getD 0), len)
            else none
          | _ => none
        | none => none
      else none
    | [] => none
  else none

/-- Anchored head of `/is_state\(['"]([a-z_]+\.[a-z0-9_]+)['"]/gi`
(server.js line 434): as above but with no closing parenthesis. -/
def matchIsStateCallAt (cs : List Char) : Option ((String × Nat) × Nat) :=
  if ciIsPrefixOf ("is_state(".toList) cs then
    match cs.drop 9 with
    | q1 :: r1 =>
      if isQuoteChar q1 then
        match matchDomainName r1 with
        | some ent =>
          match r1.drop ent.length with
          | q2 :: _ =>
            if isQuoteChar q2 then
              let len := 11 + ent.length
              some ((String.mk ent, (indexOfSub ent (cs.take len)).getD 0), len)
            else none
          | _ => none
        | none => none
      else none
    | [] => none
  else none

/-- An `EntityRef` from one scan hit: `startOffset = match.index +
match[0].indexOf(match[1])`, `endOffset = startOffset + match[1].length`. -/
def entityRefOfScan (cs : List Char) (jin : Bool) (pr : (String × Nat) × Nat) : EntityRef :=
  { entityId := pr.1.1,
    range := mkRange cs (pr.2 + pr.1.2) (pr.2 + pr.1.2 + pr.1.1.length),
    inJinja := jin }

/-- `YamlContextAnalyzer.findEntityReferences(document)` (server.js lines
381-448): the four scans in source order — single-value `entity_id`,
list-form `entity_id` (each outer match rescanned for items, with offsets
`match.index + itemMatch.index + itemMatch[0].indexOf(itemMatch[1])`),
`states(...)` calls and `is_state(...)` calls. -/
def findEntityReferences (text : String) : List EntityRef :=
  let cs := text.toList
  let fuel := cs.length + 1
  ((scanG matchEntityValueAt fuel cs 0).map (entityRefOfScan cs false)) ++
  (((scanG matchEntityListAt fuel cs 0).map (fun pr =>
      (scanG matchListItemAt (pr.1.length + 1) pr.1 0).map (fun ipr =>
        { entityId := ipr.1.1,
          range := mkRange cs (pr.2 + ipr.2 + ipr.1.2)
            (pr.2 + ipr.2 + ipr.1.2 + ipr.1.1.length),
          inJinja := false }))).flatten) ++
  ((scanG matchStatesCallAt fuel cs 0).map (entityRefOfScan cs true)) ++
  ((scanG matchIsStateCallAt fuel cs 0).map (entityRefOfScan cs true))

/-- Tail of the service pattern after a matched key literal of length
`klen`: `\s*` then the capture. -/
def matchServiceKeyAt (cs : List Char) (klen : Nat) : Option ((String × Nat) × Nat) :=
  let afterKey := cs.drop klen
  let ws := afterKey.takeWhile isJsSpace
  match matchDomainName (afterKey.drop ws.length) with
  | some ent =>
    let len := klen + ws.length + ent.length
    some ((String.mk ent, (indexOfSub ent (cs.take len)).getD 0), len)
  | none => none

/-- Anchored head of `/(?:service|action):\s*([a-z_]+\.[a-z0-9_]+)/gi`
(server.js line 458).  The alternation tries `service` first; the two
literals cannot both match at one position. -/
def matchServiceRefAt (cs : List Char) : Option ((String × Nat) × Nat) :=
  if ciIsPrefixOf ("service:".toList) cs then matchServiceKeyAt cs 8
  else if ciIsPrefixOf ("action:".toList) cs then matchServiceKeyAt cs 7
  else none

/-- `YamlContextAnalyzer.findServiceReferences(document)` (server.js
lines 453-473). -/
def findServiceReferences (text : String) : List ServiceRef :=
  let cs := text.toList
  (scanG matchServiceRefAt (cs.length + 1) cs 0).map (fun pr =>
    { service := pr.1.1,
      range := mkRange cs (pr.2 + pr.1.2) (pr.2 + pr.1.2 + pr.1.1.length) })

/-- Anchored head of `/!include\s+([^\s\n]+)/g` (server.js line 482, no
`i` flag): the literal, at least one whitespace, then a nonempty
non-whitespace run.  The offset uses `match[0].indexOf(match[1])`
literally, as the source does. -/
def matchIncludeAt (cs : List Char) : Option ((String × Nat) × Nat) :=
  if List.isPrefixOf ("!include".toList) cs then
    let after := cs.drop 8
    let ws := after.takeWhile isJsSpace
    if ws.isEmpty then none
    else
      let path := (after.drop ws.length).takeWhile (fun ch => !isJsSpace ch)
      if path.isEmpty then none
      else
        let len := 8 + ws.length + path.length
        some ((String.mk path, (indexOfSub path (cs.take len)).getD 0), len)
  else none

/-- `YamlContextAnalyzer.findIncludeReferences(document)` (server.js
lines 478-498). -/
def findIncludeReferences (text : String) : List IncludeRef :=
  let cs := text.toList
  (scanG matchIncludeAt (cs.length + 1) cs 0).map (fun pr =>
    { path := pr.1.1,
      range := mkRange cs (pr.2 + pr.1.2) (pr.2 + pr.1.2 + pr.1.1.length) })

/-- An LSP diagnostic as `validateDocument` builds them; severity 1 is
`DiagnosticSeverity.Error`, 2 is `Warning`. -/
structure Diagnostic where
  severity : Nat
  range : TextRange
  message : String
  source : String
  code : String
deriving DecidableEq, Repr

/-- What the YAML parser (`parseYaml`, the `yaml` package) reports on
failure: the error message and, when available, the 1-based `linePos`
line/column of the first error position. -/
structure YamlError where
  message : String
  linePos : Option (Nat × Nat)
deriving DecidableEq, Repr

/-- Server.js lines 1244-1251. -/
def unknownEntityDiag (r : EntityRef) : Diagnostic :=
  { severity := 2, range := r.range,
    message := "Unknown entity: " ++ r.entityId,
    source := "ha-lsp", code := "unknown-entity" }

/-- Server.js lines 1261-1267. -/
def unknownServiceDiag (r : ServiceRef) : Diagnostic :=
  { severity := 2, range := r.range,
    message := "Unknown service: " ++ r.service,
    source := "ha-lsp", code := "unknown-service" }

/-- Server.js lines 1282-1289. -/
def includeNotFoundDiag (r : IncludeRef) : Diagnostic :=
  { severity := 1, range := r.range,
    message := "Include file not found: " ++ r.path,
    source := "ha-lsp", code := "include-not-found" }

/-- Server.js lines 1296-1312: the one `yaml-syntax` error built from a
parse failure, at `linePos` (1-based, mapped to a zero-based
one-character range) or at the document start when the parser reports no
position. -/
def yamlSyntaxDiag (e : YamlError) : Diagnostic :=
  { severity := 1,
    range :=
      match e.linePos with
      | some lp =>
        { startPos := { line := lp.1 - 1, character := lp.2 - 1 },
          endPos := { line := lp.1 - 1, character := lp.2 } }
      | none =>
        { startPos := { line := 0, character := 0 },
          endPos := { line := 0, character := 1 } },
    message := "YAML syntax error: " ++ e.message,
    source := "ha-lsp", code := "yaml-syntax" }

/-- Server.js lines 1292-1313: no diagnostic when the parse succeeds,
one `yaml-syntax` error when it fails. -/
def yamlSyntaxDiags (pe : Option YamlError) : List Diagnostic :=
  match pe with
  | none => []
  | some e => [yamlSyntaxDiag e]

/-- `validateDocument(document)` (server.js lines 1229-1320).  External
state is passed explicitly: `hasToken` is the presence of
`SUPERVISOR_TOKEN`; `entityKnown` is `entityMap.has`; `serviceKnown` is
membership in the service-name set; `resolveInclude` is the
`isAbsolute ? path : resolve(docDir, path)` resolution; `fileExists` is
`existsSync`; `parseOutcome` is what `parseYaml` does on the document
text.  Without a token the function returns the empty diagnostics list at
once (the source's early `return diagnostics;` under the comment "Can't
validate without HA connection"); otherwise the four checks push in
source order.  The source wraps the checks in a `try` whose handler only
logs: that path is reachable only when a live fetch throws, which the
total oracles of the embedding have no counterpart for. -/
def validateDocument (hasToken : Bool) (text : String)
    (entityKnown serviceKnown : String → Bool)
    (resolveInclude : String → String) (fileExists : String → Bool)
    (parseOutcome : Option YamlError) : List Diagnostic :=
  if !hasToken then []
  else
    ((findEntityReferences text).filterMap (fun r =>
        if entityKnown r.entityId then none else some (unknownEntityDiag r))) ++
    ((findServiceReferences text).filterMap (fun r =>
        if serviceKnown r.service then none else some (unknownServiceDiag r))) ++
    ((findIncludeReferences text).filterMap (fun r =>
        if fileExists (resolveInclude r.path) then none else some (includeNotFoundDiag r))) ++
    yamlSyntaxDiags parseOutcome

/-- The claim's known-entity document. -/
def docC9a : String := "entity_id: light.kitchen"

/-- The claim's unknown-entity document. -/
def docC9b : String := "entity_id: light.nonexistent"

/-- A document with one missing include target and (per the supplied
parse outcome) a structural parse failure. -/
def docC4 : String := "!include missing.yaml\nkey: [unclosed"

/-- The parse outcome for `docC4`: a failure at line 2, column 15. -/
def peC4 : Option YamlError :=
  some { message := "unexpected end of flow collection", linePos := some (2, 15) }

/-- `getLineOffsets` of `vscode-languageserver-textdocument`: offset 0
plus the offset just after each newline. -/
def lineOffsetsAux : List Char → Nat → List Nat
  | [], _ => []
  | c :: rest, i =>
    if c = '\n' then (i + 1) :: lineOffsetsAux rest (i + 1)
    else lineOffsetsAux rest (i + 1)

/-- All line-start offsets of a text. -/
def lineOffsets (cs : List Char) : List Nat := 0 :: lineOffsetsAux cs 0

/-- `document.offsetAt(position)` of `vscode-languageserver-textdocument`:
the line-start offset plus the character, clamped between the line start
and the next line start (or the text length for the last line); a line
past the document maps to the text length. -/
def offsetAt (cs : List Char) (l c : Nat) : Nat :=
  let offs := lineOffsets cs
  if l < offs.length then
    let lineOff := offs.getD l 0
    let nextOff := if l + 1 < offs.length then offs.getD (l + 1) 0 else cs.length
    max (min (lineOff + c) nextOff) lineOff
  else cs.length

/-- `getWordRangeAtPosition` (server.js lines 1201-1223), as start/end
offsets: expand left and right over `[a-zA-Z0-9_.]`, `none` when the word
is empty.  The source converts the offsets to positions and `onHover`
converts them straight back with `document.getText(range)`; the round
trip is the identity, so the embedding keeps offsets. -/
def getWordRangeAtPosition (cs : List Char) (off : Nat) : Option (Nat × Nat) :=
  let a := off - ((cs.take off).reverse.takeWhile isWordDotChar).length
  let b := off + ((cs.drop off).takeWhile isWordDotChar).length
  if a = b then none else some (a, b)

/-- The full-token test of `onHover` (server.js lines 1041 and 1046),
both occurrences the same regex anchored at both ends under the `i`
flag: the whole word is one `domain.name`. -/
def isEntityIdShape (cs : List Char) : Bool :=
  let d := cs.takeWhile isDomainChar
  !d.isEmpty &&
    (match cs.drop d.length with
     | '.' :: rest =>
       let n := rest.takeWhile isNameChar
       !n.isEmpty && (rest.drop n.length).isEmpty
     | _ => false)

/-- `lineText.match(/(?:service|action):\s*/)` (server.js line 1049, no
`i` flag): since the trailing `\s*` always matches, the test is
containment of either literal. -/
def lineHasServiceKey (cs : List Char) : Bool :=
  containsSub cs ("service:".toList) || containsSub cs ("action:".toList)

/-- The test of server.js line 1055 on `text.substring(0, offset)`: the
regex (open marker, then non-closing-brace characters up to the end)
matches somewhere, i.e. some open marker is followed by no closing brace
before the cursor. -/
def jinjaOpenMatch : List Char → Bool
  | [] => false
  | c :: rest =>
    (List.isPrefixOf (['{', '{']) (c :: rest) && (rest.drop 1).all (fun ch => ch != '}'))
      || jinjaOpenMatch rest

/-- Which hover the `onHover` handler produces: the entity lookup
(`getEntityHover`), the service-catalog lookup (`getServiceHover`), the
template rendering (`getTemplateHover`, with the submitted span), or
none.  The data each branch resolves against is external; the dispatch is
what the claims concern. -/
inductive HoverResult where
  | entityHover (entityId : String)
  | serviceHover (serviceName : String)
  | templateHover (template : String)
  | noHover
deriving DecidableEq, Repr

/-- Whether a hover outcome is the service-catalog branch. -/
def isServiceHover : HoverResult → Bool
  | HoverResult.serviceHover _ => true
  | _ => false

/-- `document.getText(wordRange)`. -/
def hoverWord (cs : List Char) (se : Nat × Nat) : String :=
  String.mk ((cs.drop se.1).take (se.2 - se.1))

/-- The template branch of `onHover` (server.js lines 1055-1065): when
the before-cursor prefix holds an unmatched open marker, find the next
close marker at or after the cursor and submit the span from the last
open marker before the cursor through that close marker. -/
def jinjaHoverOf (cs : List Char) (off : Nat) : HoverResult :=
  if jinjaOpenMatch (cs.take off) then
    match indexOfFrom cs (['}', '}']) off with
    | some tEnd =>
      HoverResult.templateHover
        (String.mk ((cs.drop ((lastIndexOfFrom cs (['{', '{']) off).toNat)).take
          (tEnd + 2 - (lastIndexOfFrom cs (['{', '{']) off).toNat)))
    | none => HoverResult.noHover
  else HoverResult.noHover

/-- The dispatch of `connection.onHover` (server.js lines 1026-1068), in
source order: no word range means no hover; a `domain.name`-shaped word
returns the entity hover; the NEXT branch repeats the same shape test and
additionally requires a service-bearing key on the line before returning
the service hover — since the tests are identical, control can never
reach it; otherwise the template branch runs. -/
def onHoverDispatch (text : String) (l c : Nat) : HoverResult :=
  match getWordRangeAtPosition (text.toList) (offsetAt (text.toList) l c) with
  | none => HoverResult.noHover
  | some se =>
    if isEntityIdShape ((hoverWord (text.toList) se).toList) then
      HoverResult.entityHover (hoverWord (text.toList) se)
    else if isEntityIdShape ((hoverWord (text.toList) se).toList)
        && lineHasServiceKey (((docLines text).getD l ("")).toList) then
      HoverResult.serviceHover (hoverWord (text.toList) se)
    else jinjaHoverOf (text.toList) (offsetAt (text.toList) l c)

/-- The claim's failing input: hovering the token of a `service:` line. -/
def docC5 : String := "service: light.turn_on"

/-- One element of the `/states` snapshot as the completion builders use
it: the entity id and `attributes?.friendly_name`. -/
structure EntityState where
  entity_id : String
  friendly_name : Option String
deriving DecidableEq, Repr

/-- One element of `getServiceList()` as `getServiceCompletions` uses it:
the full `domain.name` and the human label. -/
structure ServiceItem where
  fullName : String
  name : String
deriving DecidableEq, Repr

/-- The fields of a produced completion item the claims concern: label,
detail, insert text and sort weight (documentation omitted). -/
structure CompletionItem where
  label : String
  detail : String
  insertText : String
  sortText : String
deriving DecidableEq, Repr

/-- The already-typed value capture `/:\s*([a-z_.]*)$/i` (server.js lines
663 and 711): the leftmost colon after which only whitespace and then
typed characters run to the end of the before-cursor text; the capture is
that trailing run. -/
def typedValueAux : List Char → Option (List Char)
  | [] => none
  | ':' :: rest =>
    let tail := rest.dropWhile isJsSpace
    if tail.all isTypedChar then some tail else typedValueAux rest
  | _ :: rest => typedValueAux rest

/-- `partialMatch?.[1]?.toLowerCase() || ""`: the lower-cased capture, or
empty when the regex does not match. -/
def typedValue (lbc : String) : List Char :=
  match typedValueAux lbc.toList with
  | some t => t.map Char.toLower
  | none => []

/-- `state.attributes?.friendly_name || entityId` (server.js line 668):
the JS `||` also replaces an empty friendly name. -/
def friendlyNameOf (st : EntityState) : String :=
  match st.friendly_name with
  | some s => if s = ("") then st.entity_id else s
  | none => st.entity_id

/-- `getEntityCompletions` (server.js lines 656-702), keeping the
claim-relevant fields.  A candidate is skipped when a partial exists and
neither the lower-cased entity id nor the lower-cased friendly name
contains it; `sortText` is `0`+id when the raw id starts with the
(lower-cased) partial, else `1`+id. -/
def getEntityCompletions (states : List EntityState) (lineBeforeCursor : String) :
    List CompletionItem :=
  let frag := typedValue lineBeforeCursor
  states.filterMap (fun st =>
    if !frag.isEmpty && !containsSub (st.entity_id.toList.map Char.toLower) frag
        && !containsSub ((friendlyNameOf st).toList.map Char.toLower) frag then none
    else
      some { label := st.entity_id, detail := friendlyNameOf st,
             insertText := st.entity_id,
             sortText :=
               if frag.isPrefixOf st.entity_id.toList then ("0") ++ st.entity_id
               else ("1") ++ st.entity_id })

/-- `getServiceCompletions` (server.js lines 704-749): a candidate is
skipped when a partial exists and the lower-cased full name does not
contain it; `sortText` as for entities, on the full name. -/
def getServiceCompletions (services : List ServiceItem) (lineBeforeCursor : String) :
    List CompletionItem :=
  let frag := typedValue lineBeforeCursor
  services.filterMap (fun svc =>
    if !frag.isEmpty && !containsSub (svc.fullName.toList.map Char.toLower) frag then none
    else
      some { label := svc.fullName, detail := svc.name, insertText := svc.fullName,
             sortText :=
               if frag.isPrefixOf svc.fullName.toList then ("0") ++ svc.fullName
               else ("1") ++ svc.fullName })

/-- The claim's two entity ids, with no friendly names. -/
def states7 : List EntityState :=
  [{ entity_id := "light.kitchen", friendly_name := none },
   { entity_id := "switch.linked_kitchen", friendly_name := none }]

/-- The claim's two entity ids where the second carries a friendly name
containing the partial, so both candidates survive the filter. -/
def states7w : List EntityState :=
  [{ entity_id := "light.kitchen", friendly_name := none },
   { entity_id := "switch.linked_kitchen", friendly_name := some ("Mirror of light.kitchen") }]

/-- The spec's service catalog: two `light` services and one from
another domain. -/
def svc7 : List ServiceItem :=
  [{ fullName := "light.turn_on", name := "Turn on" },
   { fullName := "light.turn_off", name := "Turn off" },
   { fullName := "switch.toggle", name := "Toggle" }]

/-! ## Theorems -/

/-- Updating a map at `k` and reading `k` back gives the new value. -/
theorem mupd_self [DecidableEq K] (m : K → Option V) (k : K) (v : V) :
    mupd m k v k = some v := by
  unfold mupd
  simp

/-- If an entry is invalid at time `t` it stays invalid at any later time
`t2` (the stored timestamp does not move). -/
theorem isCacheValid_false_mono (st : CacheState K V) (key : K) (t t2 : Int)
    (h : isCacheValid st t key = false) (hle : t ≤ t2) :
    isCacheValid st t2 key = false := by
  unfold isCacheValid at h ⊢
  cases hts : st.cacheTimestamps key with
  | none => rfl
  | some ts =>
    rw [hts] at h
    simp only [Bool.and_eq_false_iff, decide_eq_false_iff_not, not_not, not_lt] at h ⊢
    rcases h with h | h
    · exact Or.inl h
    · exact Or.inr (by omega)

/-- C1: for every cache key, a `get` issued within the TTL window after a
successful fetch for that key returns exactly the previously fetched value
and does not invoke the supplied fetcher.  `hmiss` states that the earlier
call actually fetched (its entry was invalid, so the fetcher ran and, per
`Except.ok data`, succeeded); `hpos` reflects that `Date.now()` is a
strictly positive epoch-millisecond count; `hwin` is the TTL window. -/
theorem c1_cache_ttl_hit [DecidableEq K] (st : CacheState K V) (key : K)
    (data : V) (fr : Except E V) (tF tG : Int)
    (hmiss : isCacheValid st tF key = false)
    (hpos : 0 < tF) (hwin : tG - tF < CACHE_TTL) :
    (getCached (getCached st key (Except.ok data : Except E V) tF).state key fr tG).result
      = Except.ok (some data) ∧
    (getCached (getCached st key (Except.ok data : Except E V) tF).state key fr tG).fetcherInvoked
      = false := by
  have hst : (getCached st key (Except.ok data : Except E V) tF).state
      = { cache := mupd st.cache key data,
          cacheTimestamps := mupd st.cacheTimestamps key tF } := by
    unfold getCached
    rw [hmiss]
    simp
  rw [hst]
  have hvalid : isCacheValid
      { cache := mupd st.cache key data, cacheTimestamps := mupd st.cacheTimestamps key tF }
      tG key = true := by
    show (match mupd st.cacheTimestamps key tF key with
      | none => false
      | some ts => decide (ts ≠ 0) && decide (tG - ts < CACHE_TTL)) = true
    rw [mupd_self]
    simp only [Bool.and_eq_true, decide_eq_true_iff]
    omega
  constructor
  · unfold getCached
    rw [hvalid]
    simp [mupd_self]
  · unfold getCached
    rw [hvalid]
    simp

/-- C1 witness: fetch 42 for `"states"` at clock 100 into an empty cache,
read again at clock 130 (well inside the 60000 window): the cached 42
comes back and the fetcher (here: one that would return 7) is not invoked. -/
theorem c1_cache_ttl_hit_witness :
    (getCached (getCached emptyCache ("states") (Except.ok 42 : Except Unit Nat) 100).state
        ("states") (Except.ok 7 : Except Unit Nat) 130).result = Except.ok (some 42) ∧
    (getCached (getCached emptyCache ("states") (Except.ok 42 : Except Unit Nat) 100).state
        ("states") (Except.ok 7 : Except Unit Nat) 130).fetcherInvoked = false :=
  c1_cache_ttl_hit emptyCache ("states") 42 (Except.ok 7) 100 130
    (by decide) (by decide) (by decide)

/-- C2: when the entry is expired or missing (`hmiss`) and the fetcher
fails, `getCached` returns the previously cached value without raising if
one exists, and propagates the fetcher's error exactly when no previous
value exists for the key. -/
theorem c2_cache_stale_fallback [DecidableEq K] (st : CacheState K V)
    (key : K) (err : E) (t : Int)
    (hmiss : isCacheValid st t key = false) :
    (∀ v, st.cache key = some v →
      (getCached st key (Except.error err) t).result = Except.ok (some v)) ∧
    (st.cache key = none →
      (getCached st key (Except.error err) t).result = Except.error err) := by
  constructor
  · intro v hv
    unfold getCached
    rw [hmiss]
    simp [hv]
  · intro hv
    unfold getCached
    rw [hmiss]
    simp [hv]

/-- C2 witness: at clock 100000 the `staleCache` entry (fetched at clock
10) is expired; a failing fetch still returns the stale 42.  On the empty
cache the same failing fetch propagates the error. -/
theorem c2_cache_stale_fallback_witness :
    (getCached staleCache ("states") (Except.error ()) 100000).result
      = Except.ok (some 42) ∧
    (getCached emptyCache ("states") (Except.error ()) 100000).result
      = Except.error () :=
  ⟨(c2_cache_stale_fallback staleCache ("states") () 100000 (by decide)).1 42 (by decide),
   (c2_cache_stale_fallback emptyCache ("states") () 100000 (by decide)).2 (by decide)⟩

/-- C10: when the entry is expired or missing and the fetcher fails,
`getCached` leaves both maps unchanged; consequently the entry is still
invalid at every later time, so every subsequent `get` re-attempts the
fetch (its `fetcherInvoked` is true) whatever that fetch would return. -/
theorem c10_error_leaves_state [DecidableEq K] (st : CacheState K V)
    (key : K) (err : E) (fr2 : Except E V) (t t2 : Int)
    (hmiss : isCacheValid st t key = false) (hle : t ≤ t2) :
    (getCached st key (Except.error err) t).state = st ∧
    (getCached (getCached st key (Except.error err) t).state key fr2 t2).fetcherInvoked
      = true := by
  have hst : (getCached st key (Except.error err) t).state = st := by
    unfold getCached
    rw [hmiss]
    cases hv : st.cache key <;> simp [hv]
  refine ⟨hst, ?_⟩
  rw [hst]
  have hmiss2 : isCacheValid st t2 key = false :=
    isCacheValid_false_mono st key t t2 hmiss hle
  unfold getCached
  rw [hmiss2]
  cases fr2 with
  | ok d => simp
  | error e => cases hv : st.cache key <;> simp [hv]

/-- C10 witness: the failed refresh of the expired `staleCache` entry at
clock 100000 leaves the state unchanged, and a later `get` at clock 200000
(here: one whose fetch would return 5) invokes the fetcher again. -/
theorem c10_error_leaves_state_witness :
    (getCached staleCache ("states") (Except.error ()) 100000).state = staleCache ∧
    (getCached (getCached staleCache ("states") (Except.error ()) 100000).state
        ("states") (Except.ok 5 : Except Unit Nat) 200000).fetcherInvoked = true :=
  c10_error_leaves_state staleCache ("states") () (Except.ok 5) 100000 200000
    (by decide) (by decide)

theorem parentKeysAux_eq (lines : List String) (ci : Nat) :
    ∀ n acc, parentKeysAux lines ci n acc =
      ((lines.take n).filterMap (fun pl =>
        match bareKeyOf pl.toList with
        | some k => if lineIndent pl.toList < ci then some k else none
        | none => none)) ++ acc := by
  intro n
  induction n with
  | zero => intro acc; simp [parentKeysAux]
  | succ m ih =>
    intro acc
    rw [parentKeysAux, ih]
    rw [List.take_succ, List.filterMap_append, List.append_assoc]
    congr 1
    cases hm : lines[m]? with
    | none =>
      have hgd : lines.getD m ("") = "" := by
        simp [List.getD, hm]
      rw [hgd]
      rfl
    | some pl =>
      have hgd : lines.getD m ("") = pl := by simp [List.getD, hm]
      rw [hgd]
      simp only [Option.toList_some, List.filterMap_cons, List.filterMap_nil]
      cases hbk : bareKeyOf pl.toList with
      | none => rfl
      | some k =>
        by_cases hlt : lineIndent pl.toList < ci
        · have hlt2 : lineIndent pl.data < ci := hlt
          simp [hlt, hlt2]
        · have hlt2 : ¬lineIndent pl.data < ci := hlt
          simp [hlt, hlt2]

theorem scanBack_some_iff (f : String → Option String) (lines : List String) :
    ∀ n w, scanBack f lines n = some w ↔
      ∃ i, i ≤ n ∧ f (lines.getD i ("")) = some w ∧
        ∀ j, i < j → j ≤ n → f (lines.getD j ("")) = none := by
  intro n
  induction n with
  | zero =>
    intro w
    constructor
    · intro h
      exact ⟨0, Nat.le_refl 0, h, fun j h1 h2 => absurd (Nat.lt_of_lt_of_le h1 h2) (Nat.lt_irrefl 0)⟩
    · rintro ⟨i, hi, hf, -⟩
      have hz : i = 0 := Nat.le_zero.mp hi
      subst hz
      exact hf
  | succ m ih =>
    intro w
    rw [scanBack]
    cases hf1 : f (lines.getD (m + 1) ("")) with
    | some w1 =>
      constructor
      · intro h
        have hw : w1 = w := by injection h
        subst hw
        exact ⟨m + 1, Nat.le_refl _, hf1, fun j h1 h2 => absurd (Nat.lt_of_lt_of_le h1 h2) (Nat.lt_irrefl _)⟩
      · rintro ⟨i, hi, hf, hall⟩
        rcases Nat.lt_or_ge i (m + 1) with hlt | hge
        · have hnone := hall (m + 1) hlt (Nat.le_refl _)
          rw [hf1] at hnone
          cases hnone
        · have heq : i = m + 1 := Nat.le_antisymm hi hge
          subst heq
          rw [hf1] at hf
          exact hf
    | none =>
      rw [ih]
      constructor
      · rintro ⟨i, hi, hf, hall⟩
        refine ⟨i, Nat.le_succ_of_le hi, hf, fun j h1 h2 => ?_⟩
        rcases Nat.lt_or_ge j (m + 1) with hlt | hge
        · exact hall j h1 (Nat.lt_succ_iff.mp hlt)
        · have heq : j = m + 1 := Nat.le_antisymm h2 hge
          subst heq
          exact hf1
      · rintro ⟨i, hi, hf, hall⟩
        have hi2 : i ≤ m := by
          rcases Nat.lt_or_ge i (m + 1) with hlt | hge
          · exact Nat.lt_succ_iff.mp hlt
          · exfalso
            have heq : i = m + 1 := Nat.le_antisymm hi hge
            subst heq
            rw [hf1] at hf
            cases hf
        exact ⟨i, hi2, hf, fun j h1 h2 => hall j h1 (Nat.le_succ_of_le h2)⟩

theorem lastIndexOfFrom_ge (hay needle : List Char) :
    ∀ n, -1 ≤ lastIndexOfFrom hay needle n := by
  intro n
  induction n with
  | zero =>
    rw [lastIndexOfFrom]
    split <;> omega
  | succ m ih =>
    rw [lastIndexOfFrom]
    split
    · omega
    · exact ih

theorem lastIndexOfFrom_cases (hay needle : List Char) :
    ∀ n, lastIndexOfFrom hay needle n = -1 ∨
      ∃ k : Nat, k ≤ n ∧ lastIndexOfFrom hay needle n = (k : Int) ∧
        needle.isPrefixOf (hay.drop k) = true := by
  intro n
  induction n with
  | zero =>
    rw [lastIndexOfFrom]
    by_cases h : needle.isPrefixOf hay = true
    · exact Or.inr ⟨0, Nat.le_refl 0, by rw [if_pos h]; omega, by simpa using h⟩
    · exact Or.inl (by rw [if_neg h])
  | succ m ih =>
    rw [lastIndexOfFrom]
    by_cases h : needle.isPrefixOf (hay.drop (m + 1)) = true
    · exact Or.inr ⟨m + 1, Nat.le_refl _, by rw [if_pos h], h⟩
    · rw [if_neg h]
      rcases ih with h2 | ⟨k, hk, he, hp⟩
      · exact Or.inl h2
      · exact Or.inr ⟨k, Nat.le_succ_of_le hk, he, hp⟩

theorem lastIndexOfFrom_max (hay needle : List Char) :
    ∀ n j : Nat, j ≤ n → needle.isPrefixOf (hay.drop j) = true →
      (j : Int) ≤ lastIndexOfFrom hay needle n := by
  intro n
  induction n with
  | zero =>
    intro j hj hp
    have hz : j = 0 := Nat.le_zero.mp hj
    subst hz
    rw [lastIndexOfFrom, if_pos (by simpa using hp)]
    omega
  | succ m ih =>
    intro j hj hp
    rw [lastIndexOfFrom]
    by_cases h : needle.isPrefixOf (hay.drop (m + 1)) = true
    · rw [if_pos h]
      exact_mod_cast hj
    · rw [if_neg h]
      rcases Nat.lt_or_ge j (m + 1) with hlt | hge
      · exact ih j (Nat.lt_succ_iff.mp hlt) hp
      · exfalso
        have heq : j = m + 1 := Nat.le_antisymm hj hge
        subst heq
        exact h hp

theorem inJinjaOf_iff (lbc : List Char) :
    inJinjaOf lbc = true ↔
      ∃ i, i ≤ lbc.length ∧ List.isPrefixOf (['{', '{']) (lbc.drop i) = true ∧
        ∀ j, j ≤ lbc.length → List.isPrefixOf (['}', '}']) (lbc.drop j) = true → j < i := by
  unfold inJinjaOf lastIndexOf
  rw [decide_eq_true_iff]
  constructor
  · intro hlt
    rcases lastIndexOfFrom_cases lbc (['{', '{']) lbc.length with h | ⟨k, hk, he, hp⟩
    · exfalso
      have hge := lastIndexOfFrom_ge lbc (['}', '}']) lbc.length
      omega
    · refine ⟨k, hk, hp, fun j hj hcl => ?_⟩
      have hle := lastIndexOfFrom_max lbc (['}', '}']) lbc.length j hj hcl
      omega
  · rintro ⟨i, hi, hp, hall⟩
    have h1 : (i : Int) ≤ lastIndexOfFrom lbc (['{', '{']) lbc.length :=
      lastIndexOfFrom_max lbc (['{', '{']) lbc.length i hi hp
    rcases lastIndexOfFrom_cases lbc (['}', '}']) lbc.length with h | ⟨k, hk, he, hpc⟩
    · omega
    · have := hall k hk hpc
      omega

/-- C3 counterexample: the claim's own example
(`automation:`/`  trigger:`/`    platform: time`, cursor after `time`)
yields the chain `["automation", "trigger"]`, not `["trigger"]`; and on
`doc3b` the source walk yields `["a", "b"]` while the claim's
strictly-shallower-than-every-previously-accepted rule yields `["b"]`,
so the claim's general rule also differs from the code. -/
theorem c3_chain_counterexample :
    (analyzeContext exDoc3 2 18).parentKeys = ["automation", "trigger"] ∧
    (analyzeContext doc3b 2 6).parentKeys = ["a", "b"] ∧
    chainPrevAccepted (docLines doc3b) 2 (cursorIndent doc3b 2 6) = ["b"] := by
  refine ⟨?_, ?_, ?_⟩ <;> decide

/-- C3 amended: for every document and cursor position (the cursor line
inside the document, where the source's array reads are defined), the
enclosing-key chain equals, in document order (outermost first), the bare
`key:` lines above the cursor whose indent is strictly shallower than the
cursor line's indent — every such line registers, because the walk's
threshold never changes (`currentIndent === prevIndent` is a no-op). -/
theorem c3_chain_amended (text : String) (l c : Nat)
    (_hl : l < (docLines text).length) :
    (analyzeContext text l c).parentKeys =
      ((docLines text).take l).filterMap (fun pl =>
        match bareKeyOf pl.toList with
        | some k => if lineIndent pl.toList < cursorIndent text l c then some k else none
        | none => none) := by
  have h : (analyzeContext text l c).parentKeys
      = parentKeysAux (docLines text) (cursorIndent text l c) l [] := rfl
  rw [h, parentKeysAux_eq]
  simp

/-- C3 witness: the amended characterization evaluated on the claim's
example document. -/
theorem c3_chain_amended_witness :
    (analyzeContext exDoc3 2 18).parentKeys =
      ((docLines exDoc3).take 2).filterMap (fun pl =>
        match bareKeyOf pl.toList with
        | some k => if lineIndent pl.toList < cursorIndent exDoc3 2 18 then some k else none
        | none => none) :=
  c3_chain_amended exDoc3 2 18 (by decide)

/-- C6 counterexample: on `doc6` the chain contains `trigger`, the
nearest forward `platform: time` is below the cursor, yet the analyzer
records no trigger type — the code does not scan forward. -/
theorem c6_trigger_scan_counterexample :
    (analyzeContext doc6 1 8).parentKeys = ["trigger"] ∧
    (analyzeContext doc6 1 8).triggerType = none ∧
    triggerTypeForwardSpec (docLines doc6) 1 = some ("time") := by
  refine ⟨?_, ?_, ?_⟩ <;> decide

/-- C6 amended: when the enclosing-key chain contains `trigger` or
`triggers`, the analyzer determines the trigger type by scanning BACKWARD
from the cursor line toward the document start: `triggerType = some w`
exactly when some line `i` at or above the cursor matches
`platform: <word>` with capture `w` and no line strictly between `i` and
the cursor (inclusive) matches. -/
theorem c6_trigger_scan_amended (text : String) (l c : Nat) (w : String)
    (hchain : "trigger" ∈ (analyzeContext text l c).parentKeys ∨
      "triggers" ∈ (analyzeContext text l c).parentKeys) :
    ((analyzeContext text l c).triggerType = some w ↔
      ∃ i, i ≤ l ∧ platformOfLine ((docLines text).getD i ("")) = some w ∧
        ∀ j, i < j → j ≤ l → platformOfLine ((docLines text).getD j ("")) = none) := by
  have h1 : (analyzeContext text l c).triggerType
      = triggerTypeOf (docLines text) (parentKeysOf text l c) l := rfl
  have h2 : (analyzeContext text l c).parentKeys = parentKeysOf text l c := rfl
  rw [h2] at hchain
  rw [h1]
  unfold triggerTypeOf
  rw [if_pos hchain]
  exact scanBack_some_iff platformOfLine (docLines text) l w

/-- C6 witness: on `doc6w` the nearest `platform:` at or above the
cursor is line 1, so the trigger type is `time`. -/
theorem c6_trigger_scan_amended_witness :
    (analyzeContext doc6w 2 8).triggerType = some ("time") := by
  refine (c6_trigger_scan_amended doc6w 2 8 ("time") (by decide)).mpr ?_
  refine ⟨1, by omega, by decide, ?_⟩
  intro j h1 h2
  have hj : j = 2 := by omega
  subst hj
  decide

/-- C8: `inJinja` is true exactly when the last occurrence of the
opening marker in the before-cursor prefix lies after every occurrence of
the closing marker — in particular false when no unmatched opener exists,
true for a cursor between an unmatched opener and the end of line. -/
theorem c8_injinja_iff (text : String) (l c : Nat) :
    ((analyzeContext text l c).inJinja = true ↔
      ∃ i, i ≤ (lineBefore text l c).length ∧
        List.isPrefixOf (['{', '{']) ((lineBefore text l c).drop i) = true ∧
        ∀ j, j ≤ (lineBefore text l c).length →
          List.isPrefixOf (['}', '}']) ((lineBefore text l c).drop j) = true → j < i) := by
  have h : (analyzeContext text l c).inJinja = inJinjaOf (lineBefore text l c) := rfl
  rw [h]
  exact inJinjaOf_iff (lineBefore text l c)

/-- A filterMap that skips where `p` holds and maps with `g` elsewhere
equals mapping `g` over the `!p` filter. -/
theorem filterMap_skip_map (l : List α) (p : α → Bool) (g : α → β) :
    (l.filterMap fun a => if p a then none else some (g a))
      = (l.filter fun a => !p a).map g := by
  induction l with
  | nil => rfl
  | cons a t ih =>
    by_cases h : p a = true
    · simp [List.filterMap_cons, List.filter_cons, h, ih]
    · simp [List.filterMap_cons, List.filter_cons, h, ih]

/-- Filtering such a filterMap by a test every produced element passes
keeps everything. -/
theorem filter_filterMap_keep (l : List α) (p : α → Bool) (g : α → β) (q : β → Bool)
    (hg : ∀ a, q (g a) = true) :
    ((l.filterMap fun a => if p a then none else some (g a)).filter q)
      = (l.filter fun a => !p a).map g := by
  rw [filterMap_skip_map]
  rw [List.filter_eq_self.mpr]
  intro b hb
  rw [List.mem_map] at hb
  obtain ⟨a, -, rfl⟩ := hb
  exact hg a

/-- Filtering such a filterMap by a test no produced element passes
drops everything. -/
theorem filter_filterMap_drop (l : List α) (p : α → Bool) (g : α → β) (q : β → Bool)
    (hg : ∀ a, q (g a) = false) :
    ((l.filterMap fun a => if p a then none else some (g a)).filter q) = [] := by
  rw [filterMap_skip_map]
  rw [List.filter_eq_nil_iff]
  intro b hb
  rw [List.mem_map] at hb
  obtain ⟨a, -, rfl⟩ := hb
  simp [hg a]

/-- C9: with a live snapshot, the `unknown-entity` diagnostics of
`validateDocument` are exactly the extracted entity references absent
from the snapshot, each a warning with code `unknown-entity` at the
reference's exact range; concretely, `entity_id: light.kitchen` against a
snapshot containing `light.kitchen` yields no diagnostics at all, and
`entity_id: light.nonexistent` yields exactly one `unknown-entity`
warning spanning columns 11-28 of line 0. -/
theorem c9_unknown_entity :
    (∀ (text : String) (eK sK : String → Bool) (res : String → String)
        (fx : String → Bool) (pe : Option YamlError),
      (validateDocument true text eK sK res fx pe).filter
          (fun d => d.code == ("unknown-entity")) =
        ((findEntityReferences text).filter (fun r => !eK r.entityId)).map
          unknownEntityDiag) ∧
    (validateDocument true docC9a (fun s => s == ("light.kitchen")) (fun _ => true)
        (fun p => p) (fun _ => true) none = []) ∧
    (validateDocument true docC9b (fun s => s == ("light.kitchen")) (fun _ => true)
        (fun p => p) (fun _ => true) none =
      [{ severity := 2,
         range := { startPos := { line := 0, character := 11 },
                    endPos := { line := 0, character := 28 } },
         message := "Unknown entity: light.nonexistent", source := "ha-lsp",
         code := "unknown-entity" }]) := by
  refine ⟨?_, by decide, by decide⟩
  intro text eK sK res fx pe
  have h1 : ∀ r : EntityRef, ((unknownEntityDiag r).code == ("unknown-entity")) = true :=
    fun _ => beq_self_eq_true ("unknown-entity")
  have hsv : (("unknown-service" : String) == ("unknown-entity")) = false := by decide
  have hin : (("include-not-found" : String) == ("unknown-entity")) = false := by decide
  have hys : (("yaml-syntax" : String) == ("unknown-entity")) = false := by decide
  have h2 : ∀ r : ServiceRef, ((unknownServiceDiag r).code == ("unknown-entity")) = false :=
    fun _ => hsv
  have h3 : ∀ r : IncludeRef, ((includeNotFoundDiag r).code == ("unknown-entity")) = false :=
    fun _ => hin
  have hy : (yamlSyntaxDiags pe).filter (fun d => d.code == ("unknown-entity")) = [] := by
    cases pe with
    | none => rfl
    | some e =>
      have hcode : ((yamlSyntaxDiag e).code == ("unknown-entity")) = false := hys
      simp [yamlSyntaxDiags, List.filter_cons, hcode]
  show ((((findEntityReferences text).filterMap (fun r =>
        if eK r.entityId then none else some (unknownEntityDiag r))) ++
      ((findServiceReferences text).filterMap (fun r =>
        if sK r.service then none else some (unknownServiceDiag r))) ++
      ((findIncludeReferences text).filterMap (fun r =>
        if fx (res r.path) then none else some (includeNotFoundDiag r))) ++
      yamlSyntaxDiags pe).filter (fun d => d.code == ("unknown-entity"))) = _
  rw [List.filter_append, List.filter_append, List.filter_append,
    filter_filterMap_keep _ _ _ _ h1, filter_filterMap_drop _ _ _ _ h2,
    filter_filterMap_drop _ _ _ _ h3, hy]
  simp

/-- C4 counterexample: with no live-data token, a document with a missing
include target and a failing structural parse yields NO diagnostics at
all — zero `yaml-syntax` and zero `include-not-found` findings, where the
claim promises one of each. -/
theorem c4_no_token_counterexample :
    validateDocument false docC4 (fun _ => false) (fun _ => false) (fun p => p)
        (fun _ => false) peC4 = [] ∧
    ((validateDocument false docC4 (fun _ => false) (fun _ => false) (fun p => p)
        (fun _ => false) peC4).filter (fun d => d.code == ("yaml-syntax"))).length = 0 ∧
    ((validateDocument false docC4 (fun _ => false) (fun _ => false) (fun p => p)
        (fun _ => false) peC4).filter (fun d => d.code == ("include-not-found"))).length = 0 :=
  ⟨rfl, rfl, rfl⟩

/-- C4 amended: when no live-data token is available, `validateDocument`
returns the empty diagnostics list for every document and every oracle —
the include-path and syntax checks are skipped along with the
entity/service checks.  With a token, the same document `docC4` does
yield its one `include-not-found` and its one `yaml-syntax` diagnostic,
so the degradation is due to the token check alone. -/
theorem c4_no_token_amended :
    (∀ (text : String) (eK sK : String → Bool) (res : String → String)
        (fx : String → Bool) (pe : Option YamlError),
      validateDocument false text eK sK res fx pe = []) ∧
    ((validateDocument true docC4 (fun _ => false) (fun _ => false) (fun p => p)
        (fun _ => false) peC4).filter (fun d => d.code == ("include-not-found"))).length = 1 ∧
    ((validateDocument true docC4 (fun _ => false) (fun _ => false) (fun p => p)
        (fun _ => false) peC4).filter (fun d => d.code == ("yaml-syntax"))).length = 1 :=
  ⟨fun _ _ _ _ _ _ => rfl, by decide, by decide⟩

theorem isServiceHover_jinjaHoverOf (cs : List Char) (off : Nat) :
    isServiceHover (jinjaHoverOf cs off) = false := by
  unfold jinjaHoverOf
  by_cases h : jinjaOpenMatch (cs.take off) = true
  · rw [if_pos h]
    cases indexOfFrom cs (['}', '}']) off <;> rfl
  · rw [if_neg h]
    rfl

/-- C5: the service-catalog hover branch of `onHover` is dead code — no
input whatever produces it, because the entity branch's test is the same
regex and returns first.  Concretely, hovering `light.turn_on` inside
`service: light.turn_on` (line 0, character 13) satisfies the
service-branch conditions (the token is `domain.name`-shaped and the line
has a service-bearing key) yet resolves against the entity snapshot. -/
theorem c5_hover_dead_service_branch :
    (∀ (text : String) (l c : Nat), isServiceHover (onHoverDispatch text l c) = false) ∧
    onHoverDispatch docC5 0 13 = HoverResult.entityHover ("light.turn_on") ∧
    lineHasServiceKey (docC5.toList) = true ∧
    isEntityIdShape (("light.turn_on").toList) = true := by
  refine ⟨?_, by decide, by decide, by decide⟩
  intro text l c
  unfold onHoverDispatch
  cases hw : getWordRangeAtPosition (text.toList) (offsetAt (text.toList) l c) with
  | none => rfl
  | some se =>
    dsimp only
    by_cases he : isEntityIdShape ((hoverWord (text.toList) se).toList) = true
    · rw [if_pos he]
      rfl
    · rw [if_neg he]
      have he2 : isEntityIdShape ((hoverWord (text.toList) se).toList) = false := by
        cases hb : isEntityIdShape ((hoverWord (text.toList) se).toList)
        · rfl
        · exact absurd hb he
      rw [he2, Bool.false_and, if_neg (by simp)]
      exact isServiceHover_jinjaHoverOf (text.toList) (offsetAt (text.toList) l c)

/-- A `0`-prefixed sort text orders before every `1`-prefixed one. -/
theorem zero_lt_one_append (x y : String) : ("0" ++ x : String) < ("1" ++ y) := by
  rw [String.lt_iff_toList_lt]
  obtain ⟨xd⟩ := x
  obtain ⟨yd⟩ := y
  have h1 : ("0" ++ String.mk xd).toList = '0' :: xd := rfl
  have h2 : ("1" ++ String.mk yd).toList = '1' :: yd := rfl
  rw [h1, h2]
  exact List.Lex.rel (by decide)

/-- C7: with a non-empty typed partial, every entity candidate contains
the partial in its lower-cased id or its lower-cased detail (friendly
name) — candidates not containing the partial are excluded; every
candidate whose id starts with the partial carries a sort weight ordering
it before every candidate whose id does not; the same holds for service
candidates over the full name; and concretely, partial `light.ki` over
`light.kitchen`/`switch.linked_kitchen` returns only `light.kitchen`
(ranked with weight `0...`), while partial `light.t` over the catalog
returns `light.turn_on` and `light.turn_off`, both prefix-weighted, and
excludes `switch.toggle`. -/
theorem c7_completion_ranking :
    (∀ (states : List EntityState) (lbc : String) (it : CompletionItem),
      it ∈ getEntityCompletions states lbc → typedValue lbc ≠ [] →
        containsSub (it.label.toList.map Char.toLower) (typedValue lbc) = true ∨
        containsSub (it.detail.toList.map Char.toLower) (typedValue lbc) = true) ∧
    (∀ (states : List EntityState) (lbc : String) (a b : CompletionItem),
      a ∈ getEntityCompletions states lbc → b ∈ getEntityCompletions states lbc →
        (typedValue lbc).isPrefixOf a.label.toList = true →
        (typedValue lbc).isPrefixOf b.label.toList = false →
        a.sortText < b.sortText) ∧
    (∀ (services : List ServiceItem) (lbc : String) (it : CompletionItem),
      it ∈ getServiceCompletions services lbc → typedValue lbc ≠ [] →
        containsSub (it.label.toList.map Char.toLower) (typedValue lbc) = true) ∧
    (∀ (services : List ServiceItem) (lbc : String) (a b : CompletionItem),
      a ∈ getServiceCompletions services lbc → b ∈ getServiceCompletions services lbc →
        (typedValue lbc).isPrefixOf a.label.toList = true →
        (typedValue lbc).isPrefixOf b.label.toList = false →
        a.sortText < b.sortText) ∧
    (getEntityCompletions states7 ("entity_id: light.ki") =
      [{ label := "light.kitchen", detail := "light.kitchen",
         insertText := "light.kitchen", sortText := "0light.kitchen" }]) ∧
    (getServiceCompletions svc7 ("service: light.t") =
      [{ label := "light.turn_on", detail := "Turn on",
         insertText := "light.turn_on", sortText := "0light.turn_on" },
       { label := "light.turn_off", detail := "Turn off",
         insertText := "light.turn_off", sortText := "0light.turn_off" }]) := by
  refine ⟨?_, ?_, ?_, ?_, by decide, by decide⟩
  · intro states lbc it hit hfrag
    rw [getEntityCompletions, List.mem_filterMap] at hit
    obtain ⟨st, hst, heq⟩ := hit
    by_cases hc : (!(typedValue lbc).isEmpty
        && !containsSub (st.entity_id.toList.map Char.toLower) (typedValue lbc)
        && !containsSub ((friendlyNameOf st).toList.map Char.toLower) (typedValue lbc)) = true
    · rw [if_pos hc] at heq
      cases heq
    · rw [if_neg hc] at heq
      injection heq with heq
      subst heq
      have he : (typedValue lbc).isEmpty = false := by
        cases hb : (typedValue lbc).isEmpty
        · rfl
        · exact absurd (List.isEmpty_iff.mp hb) hfrag
      have hc2 := Bool.eq_false_iff.mpr hc
      rw [he] at hc2
      simp only [Bool.not_false, Bool.true_and, Bool.and_eq_false_iff,
        Bool.not_eq_false'] at hc2
      exact hc2
  · intro states lbc a b ha hb hpa hpb
    rw [getEntityCompletions, List.mem_filterMap] at ha hb
    obtain ⟨st, -, heqa⟩ := ha
    obtain ⟨st2, -, heqb⟩ := hb
    by_cases hca : (!(typedValue lbc).isEmpty
        && !containsSub (st.entity_id.toList.map Char.toLower) (typedValue lbc)
        && !containsSub ((friendlyNameOf st).toList.map Char.toLower) (typedValue lbc)) = true
    · rw [if_pos hca] at heqa
      cases heqa
    · rw [if_neg hca] at heqa
      injection heqa with heqa
      subst heqa
      by_cases hcb : (!(typedValue lbc).isEmpty
          && !containsSub (st2.entity_id.toList.map Char.toLower) (typedValue lbc)
          && !containsSub ((friendlyNameOf st2).toList.map Char.toLower) (typedValue lbc)) = true
      · rw [if_pos hcb] at heqb
        cases heqb
      · rw [if_neg hcb] at heqb
        injection heqb with heqb
        subst heqb
        dsimp only at hpa hpb ⊢
        rw [if_pos hpa, if_neg (Bool.eq_false_iff.mp hpb)]
        exact zero_lt_one_append st.entity_id st2.entity_id
  · intro services lbc it hit hfrag
    rw [getServiceCompletions, List.mem_filterMap] at hit
    obtain ⟨svc, hsvc, heq⟩ := hit
    by_cases hc : (!(typedValue lbc).isEmpty
        && !containsSub (svc.fullName.toList.map Char.toLower) (typedValue lbc)) = true
    · rw [if_pos hc] at heq
      cases heq
    · rw [if_neg hc] at heq
      injection heq with heq
      subst heq
      have he : (typedValue lbc).isEmpty = false := by
        cases hb : (typedValue lbc).isEmpty
        · rfl
        · exact absurd (List.isEmpty_iff.mp hb) hfrag
      have hc2 := Bool.eq_false_iff.mpr hc
      rw [he] at hc2
      simp only [Bool.not_false, Bool.true_and, Bool.not_eq_false'] at hc2
      exact hc2
  · intro services lbc a b ha hb hpa hpb
    rw [getServiceCompletions, List.mem_filterMap] at ha hb
    obtain ⟨svc, -, heqa⟩ := ha
    obtain ⟨svc2, -, heqb⟩ := hb
    by_cases hca : (!(typedValue lbc).isEmpty
        && !containsSub (svc.fullName.toList.map Char.toLower) (typedValue lbc)) = true
    · rw [if_pos hca] at heqa
      cases heqa
    · rw [if_neg hca] at heqa
      injection heqa with heqa
      subst heqa
      by_cases hcb : (!(typedValue lbc).isEmpty
          && !containsSub (svc2.fullName.toList.map Char.toLower) (typedValue lbc)) = true
      · rw [if_pos hcb] at heqb
        cases heqb
      · rw [if_neg hcb] at heqb
        injection heqb with heqb
        subst heqb
        dsimp only at hpa hpb ⊢
        rw [if_pos hpa, if_neg (Bool.eq_false_iff.mp hpb)]
        exact zero_lt_one_append svc.fullName svc2.fullName

/-- C7 witness: with the partial `light.ki` and `states7w` (where the
second candidate survives through its friendly name), both items are
produced and the prefix-matched one sorts before the other. -/
theorem c7_completion_ranking_witness :
    ∃ a b : CompletionItem,
      a ∈ getEntityCompletions states7w ("entity_id: light.ki") ∧
      b ∈ getEntityCompletions states7w ("entity_id: light.ki") ∧
      a.sortText < b.sortText := by
  refine ⟨CompletionItem.mk ("light.kitchen") ("light.kitchen") ("light.kitchen")
      ("0light.kitchen"),
    CompletionItem.mk ("switch.linked_kitchen") ("Mirror of light.kitchen")
      ("switch.linked_kitchen") ("1switch.linked_kitchen"),
    by decide, by decide, ?_⟩
  exact c7_completion_ranking.2.1 states7w ("entity_id: light.ki") _ _
    (by decide) (by decide) (by decide) (by decide)
